import Mathlib

/-
  Verification development for the ATS Resume Intelligence Tool's matching
  and scoring engine.  The JavaScript source is shallowly embedded:
  JavaScript strings are Lean `String`s (worked on through their character
  lists), JavaScript numbers are `ℚ` (with `Math.round`/`Math.floor`
  modelled on `Int.floor`), JavaScript `Set`/object tables are association
  lists.  Upstream NLP extraction (the `compromise`/`wink` libraries) is
  not part of the engine; the terms it produces enter the embedded
  functions as parameters, exactly as the engine receives them.
-/

set_option maxRecDepth 200000

/-! ## Basic JS string primitives -/

/-- The JS whitespace class `\s`, restricted to the ASCII whitespace this
code base can meet. -/
def isJsSpace (c : Char) : Bool :=
  c.toNat = 32 ∨ c.toNat = 9 ∨ c.toNat = 10 ∨ c.toNat = 13 ∨ c.toNat = 11 ∨ c.toNat = 12

/-- The JS word-character class `\w`: ASCII letters, digits and underscore. -/
def isWordChar (c : Char) : Bool :=
  (48 ≤ c.toNat ∧ c.toNat ≤ 57) ∨ (65 ≤ c.toNat ∧ c.toNat ≤ 90) ∨
  (97 ≤ c.toNat ∧ c.toNat ≤ 122) ∨ c.toNat = 95

/-- ASCII case folding of one character, as `String.prototype.toLowerCase`
acts on the ASCII range. -/
def jsLowerChar (c : Char) : Char :=
  if 65 ≤ c.toNat ∧ c.toNat ≤ 90 then Char.ofNat (c.toNat + 32) else c

/-- JS `String.prototype.toLowerCase` (ASCII range). -/
def jsToLower (s : String) : String := ⟨s.data.map jsLowerChar⟩

/-- Strip leading and trailing whitespace from a character list. -/
def trimList (l : List Char) : List Char :=
  ((l.dropWhile isJsSpace).reverse.dropWhile isJsSpace).reverse

/-- JS `String.prototype.trim`. -/
def jsTrim (s : String) : String := ⟨trimList s.data⟩

/-- The `skill.toLowerCase().trim()` idiom used throughout the source. -/
def jsLowerTrim (s : String) : String := jsTrim (jsToLower s)

/-- `pat` is a prefix of `text` (character lists). -/
def listIsPrefix : List Char → List Char → Bool
  | [], _ => true
  | _ :: _, [] => false
  | a :: as, b :: bs => a = b && listIsPrefix as bs

/-- JS `String.prototype.includes`: `pat` occurs somewhere in `text`. -/
def containsSub : List Char → List Char → Bool
  | [], pat => listIsPrefix pat []
  | c :: t, pat => listIsPrefix pat (c :: t) || containsSub t pat

/-- JS `String.prototype.indexOf`: index of the first occurrence of `pat`
in `text`, `none` for `-1`. -/
def firstIndexOf : List Char → List Char → Option Nat
  | [], pat => if listIsPrefix pat [] then some 0 else none
  | c :: t, pat =>
    if listIsPrefix pat (c :: t) then some 0
    else (firstIndexOf t pat).map (· + 1)

/-! ## SkillNormalizer (nlp.utils.js) -/

/-- Lookup in a JS object literal built from `entries` in order: a later
duplicate key overwrites an earlier one, so the last binding wins. -/
def objLookup (entries : List (String × String)) (k : String) : Option String :=
  entries.foldl (fun acc p => if p.1 = k then some p.2 else acc) none

/-- The `skillNormalizations` dictionary, in source order (the JS object
literal keeps the last value of a duplicated key, which `objLookup`
reproduces). -/
def skillNormalizations : List (String × String) := [
  ("reactjs", "react"),
  ("react.js", "react"),
  ("react native", "react"),
  ("nodejs", "node.js"),
  ("node", "node.js"),
  ("vuejs", "vue"),
  ("vue.js", "vue"),
  ("angularjs", "angular"),
  ("angular.js", "angular"),
  ("angular 2", "angular"),
  ("angular 4", "angular"),
  ("nextjs", "next.js"),
  ("next", "next.js"),
  ("nuxtjs", "nuxt.js"),
  ("nuxt", "nuxt.js"),
  ("express", "express.js"),
  ("expressjs", "express.js"),
  ("jquery", "jquery"),
  ("js", "javascript"),
  ("javascript", "javascript"),
  ("es6", "javascript"),
  ("ecmascript", "javascript"),
  ("ts", "typescript"),
  ("typescript", "typescript"),
  ("py", "python"),
  ("python", "python"),
  ("python2", "python"),
  ("python3", "python"),
  ("django", "django"),
  ("flask", "flask"),
  ("fastapi", "fastapi"),
  ("postgres", "postgresql"),
  ("postgresql", "postgresql"),
  ("postgre", "postgresql"),
  ("psql", "postgresql"),
  ("mongo", "mongodb"),
  ("mongodb", "mongodb"),
  ("mysql", "mysql"),
  ("mariadb", "mysql"),
  ("mssql", "sql server"),
  ("sql server", "sql server"),
  ("oracle", "oracle"),
  ("redis", "redis"),
  ("elasticsearch", "elasticsearch"),
  ("cassandra", "cassandra"),
  ("dynamodb", "dynamodb"),
  ("nosql", "nosql"),
  ("sql", "sql"),
  ("aws", "amazon web services"),
  ("amazon web services", "aws"),
  ("ec2", "aws"),
  ("lambda", "aws lambda"),
  ("s3", "aws s3"),
  ("gcp", "google cloud platform"),
  ("google cloud", "google cloud platform"),
  ("google cloud platform", "gcp"),
  ("azure", "microsoft azure"),
  ("microsoft azure", "azure"),
  ("k8s", "kubernetes"),
  ("kubernetes", "kubernetes"),
  ("docker", "docker"),
  ("ci/cd", "continuous integration"),
  ("cicd", "continuous integration"),
  ("continuous integration", "ci/cd"),
  ("continuous deployment", "ci/cd"),
  ("devops", "development operations"),
  ("jenkins", "jenkins"),
  ("gitlab", "gitlab"),
  ("github", "github"),
  ("git", "git"),
  ("bitbucket", "bitbucket"),
  ("terraform", "terraform"),
  ("ansible", "ansible"),
  ("puppet", "puppet"),
  ("chef", "chef"),
  ("html", "html5"),
  ("html5", "html"),
  ("css", "css3"),
  ("css3", "css"),
  ("sass", "scss"),
  ("scss", "sass"),
  ("less", "less"),
  ("bootstrap", "bootstrap"),
  ("tailwind", "tailwind css"),
  ("tailwindcss", "tailwind css"),
  ("material ui", "material-ui"),
  ("mui", "material-ui"),
  ("api", "apis"),
  ("apis", "api"),
  ("rest", "restful"),
  ("restful", "rest api"),
  ("rest api", "restful"),
  ("graphql", "graphql"),
  ("grpc", "grpc"),
  ("websocket", "websockets"),
  ("websockets", "websocket"),
  ("ml", "machine learning"),
  ("machine learning", "ml"),
  ("ai", "artificial intelligence"),
  ("artificial intelligence", "ai"),
  ("deep learning", "deep learning"),
  ("dl", "deep learning"),
  ("nlp", "natural language processing"),
  ("natural language processing", "nlp"),
  ("tensorflow", "tensorflow"),
  ("pytorch", "pytorch"),
  ("keras", "keras"),
  ("scikit-learn", "scikit-learn"),
  ("sklearn", "scikit-learn"),
  ("ios", "ios"),
  ("android", "android"),
  ("react native", "react native"),
  ("flutter", "flutter"),
  ("swift", "swift"),
  ("kotlin", "kotlin"),
  ("objective-c", "objective-c"),
  ("objective c", "objective-c"),
  ("jest", "jest"),
  ("mocha", "mocha"),
  ("chai", "chai"),
  ("junit", "junit"),
  ("pytest", "pytest"),
  ("selenium", "selenium"),
  ("cypress", "cypress"),
  ("testing", "testing"),
  ("unit testing", "testing"),
  ("integration testing", "testing"),
  ("e2e", "end-to-end testing"),
  ("end to end testing", "e2e"),
  ("agile", "agile"),
  ("scrum", "scrum"),
  ("kanban", "kanban"),
  ("waterfall", "waterfall"),
  ("tdd", "test driven development"),
  ("test driven development", "tdd"),
  ("bdd", "behavior driven development"),
  ("java", "java"),
  ("c#", "c sharp"),
  ("c sharp", "c#"),
  ("c++", "c++"),
  ("c", "c"),
  ("go", "golang"),
  ("golang", "go"),
  ("rust", "rust"),
  ("ruby", "ruby"),
  ("php", "php"),
  ("r", "r"),
  ("scala", "scala"),
  ("elixir", "elixir"),
  ("wordpress", "wordpress"),
  ("wp", "wordpress"),
  ("drupal", "drupal"),
  ("shopify", "shopify"),
  ("magento", "magento"),
  ("woocommerce", "woocommerce"),
  ("salesforce", "salesforce"),
  ("sap", "sap"),
  ("oracle", "oracle"),
  ("jira", "jira"),
  ("confluence", "confluence"),
  ("slack", "slack"),
  ("teams", "microsoft teams"),
  ("microsoft teams", "teams"),
  ("tableau", "tableau"),
  ("power bi", "power bi"),
  ("powerbi", "power bi"),
  ("looker", "looker"),
  ("excel", "excel"),
  ("spreadsheets", "excel"),
  ("google sheets", "google sheets"),
  ("spark", "apache spark"),
  ("apache spark", "spark"),
  ("hadoop", "hadoop"),
  ("kafka", "apache kafka"),
  ("apache kafka", "kafka"),
  ("airflow", "airflow"),
  ("version control", "git"),
  ("source control", "git"),
  ("svn", "subversion"),
  ("subversion", "svn")]

/-- `normalizeSkill` (nlp.utils.js): look the lower-cased, trimmed skill up
in the dictionary, else pass it through lower-cased and trimmed. -/
def normalizeSkill (skill : String) : String :=
  let lower := jsLowerTrim skill
  (objLookup skillNormalizations lower).getD lower

/-! ## TextNormalizer (nlp.utils.js `preprocessText`) -/

/-- A JS value as `preprocessText` can receive one. -/
inductive JsVal where
  | strv (s : String)
  | nullv
  | undefinedv
  | numv (q : ℚ)
  | boolv (b : Bool)

/-- The regex replace `/\s+/g → ' '`: every maximal whitespace run becomes
one blank. -/
def collapseWS : List Char → List Char
  | [] => []
  | c :: t =>
    let r := collapseWS t
    if isJsSpace c then (if r.head? = some ' ' then r else ' ' :: r) else c :: r

/-- The regex replace `[^\w\s\.\+\#\-\/\(\)] → ' '`: every character that is
not a word character, whitespace or one of the kept technical characters
becomes a blank. -/
def replaceKeptChar (c : Char) : Char :=
  if isWordChar c ∨ isJsSpace c ∨ c ∈ ['.', '+', '#', '-', '/', '(', ')'] then c else ' '

/-- The regex replace `/\b\s+/g → ' '`: a whitespace run immediately
preceded by a word character (the only way `\b` can stand before `\s`)
becomes one blank; other runs are untouched.  `prevWord` tracks whether the
previous character was a word character, `skipping` whether we are inside a
run already replaced. -/
def collapseAfterWordBoundary : Bool → Bool → List Char → List Char
  | _, _, [] => []
  | prevWord, skipping, c :: t =>
    if isJsSpace c then
      if skipping then collapseAfterWordBoundary false true t
      else if prevWord then ' ' :: collapseAfterWordBoundary false true t
      else c :: collapseAfterWordBoundary false false t
    else c :: collapseAfterWordBoundary (isWordChar c) false t

/-- The four chained replaces and final trim of `preprocessText` on an
actual string. -/
def preprocessTransform (s : String) : String :=
  let l1 := collapseWS s.data
  let l2 := l1.map replaceKeptChar
  let l3 := collapseWS l2
  let l4 := collapseAfterWordBoundary false false l3
  ⟨trimList l4⟩

/-- `preprocessText` (nlp.utils.js): `!text || typeof text !== 'string'`
yields the empty string (this catches `null`, `undefined`, numbers,
booleans, and the empty string itself, which is falsy). -/
def preprocessText : JsVal → String
  | .strv s => if s = "" then "" else preprocessTransform s
  | _ => ""

/-! ## Term frequency (nlp.utils.js `calculateTFIDF`, single-document case) -/

/-- Split on a single character (every occurrence separates, like JS
`split` with a plain separator). -/
def splitOnChar (ch : Char) : List Char → List (List Char)
  | [] => [[]]
  | c :: t =>
    let r := splitOnChar ch t
    if c = ch then [] :: r
    else
      match r with
      | h :: rt => (c :: h) :: rt
      | [] => [[c]]

/-- JS `split(/\s+/)`: collapsing whitespace runs first makes every run a
single blank, so splitting on the blank gives the same pieces. -/
def jsSplitWS (l : List Char) : List (List Char) :=
  splitOnChar ' ' (collapseWS l)

/-- Increment `k`'s count in an association list (insertion order kept,
like a JS object). -/
def bumpTF : List (String × Nat) → String → List (String × Nat)
  | [], k => [(k, 1)]
  | p :: rest, k => if p.1 = k then (p.1, p.2 + 1) :: rest else p :: bumpTF rest k

/-- `calculateTFIDF(text, [text])` (nlp.utils.js): with a single document
the function returns the normalized term frequencies of the words of the
preprocessed text that are longer than two characters. -/
def calculateTFIDF (text : String) : List (String × ℚ) :=
  let words := (jsSplitWS (preprocessText (.strv text)).data).map (fun l => String.mk l)
  let totalWords := words.length
  let termFreq := words.foldl (fun acc w => if w.length > 2 then bumpTF acc w else acc) []
  termFreq.map (fun p => (p.1, (p.2 : ℚ) / (totalWords : ℚ)))

/-- `isGenericWord` (nlp.utils.js). -/
def genericWordList : List String := [
  "description", "experience", "skills", "education", "work", "job",
  "company", "team", "role", "position", "responsibilities", "requirements",
  "qualifications", "candidate", "professional", "summary", "objective",
  "things", "stuff", "various", "multiple", "several", "many", "some",
  "good", "great", "excellent", "strong", "ability", "knowledge",
  "years", "required", "preferred", "must", "should", "will", "can",
  "seeking", "looking", "join", "growing", "field", "related", "degree"]

def isGenericWord (word : String) : Bool :=
  genericWordList.contains (jsToLower word)

/-! ## FuzzyMatcher (spellcheck.utils.js and the string-similarity library) -/

/-- One row-extension step of the `levenshteinDistance` dynamic program:
`s2` the remaining second string, the first list the remaining previous row
(head = diagonal neighbour, next = upper neighbour), `left` the value just
computed in the new row. -/
def levRowAux (c1 : Char) : List Char → List Nat → Nat → List Nat
  | [], _, _ => []
  | c2 :: s2t, diag :: up :: prest, left =>
    let cost := if c1 = c2 then 0 else 1
    let cur := Nat.min (Nat.min (up + 1) (left + 1)) (diag + cost)
    cur :: levRowAux c1 s2t (up :: prest) cur
  | _ :: _, _, _ => []

/-- `levenshteinDistance` (spellcheck.utils.js): the standard edit-distance
matrix, filled row by row. -/
def levenshteinDistance (a b : String) : Nat :=
  let row0 := List.range (b.data.length + 1)
  let final := a.data.foldl (fun (st : List Nat × Nat) c1 =>
    let i := st.2 + 1
    (i :: levRowAux c1 b.data st.1 i, i)) (row0, 0)
  final.1.getLastD 0

/-- Bigrams of a character list. -/
def bigramsL : List Char → List (Char × Char)
  | a :: b :: t => (a, b) :: bigramsL (b :: t)
  | _ => []

/-- Increment a bigram's count. -/
def bumpBigram : List ((Char × Char) × Nat) → (Char × Char) → List ((Char × Char) × Nat)
  | [], k => [(k, 1)]
  | p :: rest, k => if p.1 = k then (p.1, p.2 + 1) :: rest else p :: bumpBigram rest k

/-- Take one occurrence of a bigram out of the count map; `none` when its
count is exhausted (or absent). -/
def takeBigram : List ((Char × Char) × Nat) → (Char × Char) → Option (List ((Char × Char) × Nat))
  | [], _ => none
  | p :: rest, k =>
    if p.1 = k ∧ p.2 > 0 then some ((p.1, p.2 - 1) :: rest)
    else (takeBigram rest k).map (p :: ·)

/-- Modelled from the spec: the external `string-similarity` library's
`compareTwoStrings` — the spec's "token-set (bag-of-words) similarity
coefficient" of §4.5 — which is the Sørensen–Dice coefficient over bigram
multisets of the whitespace-stripped strings (1 for equal strings, 0 when
either has fewer than two characters). -/
def compareTwoStrings (first second : String) : ℚ :=
  let f := first.data.filter (fun c => ¬ isJsSpace c)
  let s := second.data.filter (fun c => ¬ isJsSpace c)
  if f = s then 1
  else if f.length < 2 ∨ s.length < 2 then 0
  else
    let firstBigrams := (bigramsL f).foldl bumpBigram []
    let r := (bigramsL s).foldl (fun (st : List ((Char × Char) × Nat) × Nat) bg =>
      match takeBigram st.1 bg with
      | some m => (m, st.2 + 1)
      | none => (st.1, st.2)) (firstBigrams, 0)
    (2 * r.2 : ℚ) / ((f.length + s.length - 2 : Nat) : ℚ)

/-- `areSkillsSimilar` (spellcheck.utils.js). -/
def areSkillsSimilar (skill1 skill2 : String) (threshold : Nat) : Bool :=
  let s1 := jsLowerTrim skill1
  let s2 := jsLowerTrim skill2
  if s1 = s2 then true
  else
    let distance := levenshteinDistance s1 s2
    let maxLen := Nat.max s1.data.length s2.data.length
    let allowedDistance := if maxLen ≤ 5 then 1 else threshold
    distance ≤ allowedDistance

/-- The `commonTechTypos` dictionary (spellcheck.utils.js), in source
order. -/
def commonTechTypos : List (String × String) := [
  ("pyhton", "python"),
  ("pytohn", "python"),
  ("javasript", "javascript"),
  ("javascirpt", "javascript"),
  ("javascrpit", "javascript"),
  ("typescipt", "typescript"),
  ("typescirpt", "typescript"),
  ("kuberntes", "kubernetes"),
  ("kuberentes", "kubernetes"),
  ("postgre", "postgresql"),
  ("postgress", "postgresql"),
  ("mongod", "mongodb"),
  ("mongobd", "mongodb"),
  ("reactjs", "react"),
  ("react.js", "react"),
  ("nodejs", "node.js"),
  ("node.js", "node"),
  ("angularjs", "angular"),
  ("vuejs", "vue"),
  ("vue.js", "vue"),
  ("expresjs", "express"),
  ("expres", "express"),
  ("redis", "redis"),
  ("rediss", "redis"),
  ("docker", "docker"),
  ("dokcer", "docker"),
  ("git", "git"),
  ("github", "github"),
  ("gitlab", "gitlab"),
  ("jira", "jira"),
  ("aws", "aws"),
  ("gcp", "gcp"),
  ("azure", "azure"),
  ("asure", "azure")]

/-- The `for (const typo of typoKeys)` loop of `autocorrectSkill`: the
first key within fuzzy distance wins, in insertion order. -/
def findTypoFuzzy (lower : String) : List (String × String) → Option String
  | [] => none
  | (typo, canon) :: rest =>
    if areSkillsSimilar lower typo 1 then some canon else findTypoFuzzy lower rest

/-- `autocorrectSkill` (spellcheck.utils.js): exact typo lookup, then a
fuzzy lookup over the typo keys, else the skill unchanged. -/
def autocorrectSkill (skill : String) : String :=
  let lower := jsLowerTrim skill
  match objLookup commonTechTypos lower with
  | some v => v
  | none => (findTypoFuzzy lower commonTechTypos).getD skill

/-- The result record of `findBestMatchWithTypoTolerance`. -/
structure TypoMatch where
  found : Option String
  score : ℚ
  corrected : Bool

/-- `findBestMatchWithTypoTolerance` (spellcheck.utils.js): autocorrect the
target, score each candidate by the larger of the Dice similarity and the
normalized Levenshtein similarity (exact match short-circuits to 1), keep
the best-scoring candidate, and report it only when its score reaches the
threshold.  `corrected` records whether autocorrection changed the
target. -/
def findBestMatchWithTypoTolerance (targetSkill : String) (skillsList : List String)
    (threshold : ℚ) : TypoMatch :=
  match skillsList with
  | [] => ⟨none, 0, false⟩
  | h :: t =>
    let corrected := autocorrectSkill targetSkill
    let skillToMatch := jsToLower corrected
    let scoreOf := fun (skill : String) =>
      let s := jsToLower skill
      if skillToMatch = s then (1 : ℚ)
      else
        let similarity := compareTwoStrings skillToMatch s
        let distance := levenshteinDistance skillToMatch s
        let maxLen := Nat.max skillToMatch.data.length s.data.length
        let levenSimilarity := 1 - (distance : ℚ) / (maxLen : ℚ)
        max similarity levenSimilarity
    let best := t.foldl (fun (prev : String × ℚ) skill =>
      let sc := scoreOf skill
      if sc > prev.2 then (skill, sc) else prev) (h, scoreOf h)
    ⟨if best.2 ≥ threshold then some best.1 else none, best.2,
      decide (corrected ≠ targetSkill)⟩

/-- The result record of `findBestMatch` (nlp.utils.js). -/
structure BestMatch where
  found : Option String
  score : ℚ

/-- `calculateSimilarity` (nlp.utils.js): 1 for skills equal after
normalization, else the library similarity of the normalized forms. -/
def calculateSimilarity (skill1 skill2 : String) : ℚ :=
  let normalized1 := normalizeSkill skill1
  let normalized2 := normalizeSkill skill2
  if normalized1 = normalized2 then 1 else compareTwoStrings normalized1 normalized2

/-- `findBestMatch` (nlp.utils.js): the first candidate with the maximal
similarity (the `reduce` keeps the earlier element on ties). -/
def findBestMatch (targetSkill : String) (skillsList : List String) : BestMatch :=
  match skillsList with
  | [] => ⟨none, 0⟩
  | h :: t =>
    let best := t.foldl (fun (prev : String × ℚ) skill =>
      let sc := calculateSimilarity targetSkill skill
      if sc > prev.2 then (skill, sc) else prev) (h, calculateSimilarity targetSkill h)
    ⟨some best.1, best.2⟩

/-! ## ImportanceWeighter (api.js `categorizeSkillImportance`, `analyzeJobDescription`) -/

def requiredIndicators : List String :=
  ["required", "must have", "mandatory", "essential", "must be", "need to"]

def preferredIndicators : List String :=
  ["preferred", "nice to have", "bonus", "plus", "desired", "ideal"]

/-- The ±100-character context window around the term's first occurrence
(`substring(contextStart, contextEnd)`; `Math.max(0, ·)` is the truncated
Nat subtraction). -/
def termContext (lowerText termLower : List Char) (termIndex : Nat) : List Char :=
  let contextEnd := Nat.min lowerText.length (termIndex + termLower.length + 100)
  (lowerText.take contextEnd).drop (termIndex - 100)

def hasRequiredIndicator (context : List Char) : Bool :=
  requiredIndicators.any fun ind => containsSub context ind.data

def hasPreferredIndicator (context : List Char) : Bool :=
  preferredIndicators.any fun ind => containsSub context ind.data

/-- A JS `Set.add`: append when absent. -/
def addSet (l : List String) (x : String) : List String :=
  if l.contains x then l else l ++ [x]

/-- One iteration of the `terms.forEach` of `categorizeSkillImportance`:
a term that does not occur in the lower-cased JD is skipped; otherwise a
required indicator in the context wins, then a preferred indicator, and
the default is required. -/
def categorizeStep (lowerText : List Char) (acc : List String × List String)
    (term : String) : List String × List String :=
  let termLower := (jsToLower term).data
  match firstIndexOf lowerText termLower with
  | none => acc
  | some termIndex =>
    let context := termContext lowerText termLower termIndex
    if hasRequiredIndicator context then
      (addSet acc.1 (normalizeSkill term), acc.2)
    else if hasPreferredIndicator context then
      (acc.1, addSet acc.2 (normalizeSkill term))
    else
      (addSet acc.1 (normalizeSkill term), acc.2)

/-- `categorizeSkillImportance` (api.js): the `(required, preferred)`
sets. -/
def categorizeSkillImportance (jdText : String) (terms : List String) :
    List String × List String :=
  terms.foldl (categorizeStep (jsToLower jdText).data) ([], [])

/-- A weighted job-description term (the record built in
`analyzeJobDescription`). -/
structure WeightedTerm where
  term : String
  originalTerm : String
  weight : ℚ
  isRequired : Bool
  isPreferred : Bool
  frequency : Nat
  deriving DecidableEq

/-- Count the non-overlapping, case-insensitive occurrences of `pat` in
`text` (fuel-driven so that the definition stays structural; the fuel is
always at least the text length, which bounds the number of steps). -/
def countOccFuel : Nat → List Char → List Char → Nat
  | 0, _, _ => 0
  | _ + 1, [], _ => 0
  | fuel + 1, c :: t, pat =>
    if listIsPrefix pat (c :: t) then 1 + countOccFuel fuel ((c :: t).drop pat.length) pat
    else countOccFuel fuel t pat

/-- The `jdText.match(new RegExp(escapedTerm, 'gi'))` count of
`analyzeJobDescription` (the term is regex-escaped, so it matches
literally; an empty pattern matches at every position). -/
def countOccCI (text pat : String) : Nat :=
  let tl := (jsToLower text).data
  let pl := (jsToLower pat).data
  if pl = [] then tl.length + 1 else countOccFuel tl.length tl pl

/-- `tfidf[term.toLowerCase()] || 0.1` (a zero value is falsy too). -/
def baseWeightOf (tfidf : List (String × ℚ)) (term : String) : ℚ :=
  match tfidf.lookup (jsToLower term) with
  | some v => if v = 0 then 1/10 else v
  | none => 1/10

/-- The weighting block of `analyzeJobDescription` for one term: base
weight from term frequency, then ×3 when the normalized term is in the
required set, ×1.5 when it is in the preferred set (two separate `if`s),
×1.3 for literal frequency above 2, ×0.3 for a generic word. -/
def weighTerm (jdText : String) (required preferred : List String)
    (tfidf : List (String × ℚ)) (term : String) : WeightedTerm :=
  let normalized := normalizeSkill term
  let baseWeight := baseWeightOf tfidf term
  let w1 := if required.contains normalized then baseWeight * 3 else baseWeight
  let w2 := if preferred.contains normalized then w1 * (3/2) else w1
  let frequency := countOccCI jdText term
  let w3 := if frequency > 2 then w2 * (13/10) else w2
  let w4 := if isGenericWord term then w3 * (3/10) else w3
  { term := normalized, originalTerm := term, weight := w4,
    isRequired := required.contains normalized,
    isPreferred := preferred.contains normalized,
    frequency := frequency }

/-- `removeDuplicatesByNormalized` (api.js): keep the first record for
each normalized term. -/
def removeDupAux (seen : List String) : List WeightedTerm → List WeightedTerm
  | [] => []
  | t :: rest =>
    if seen.contains t.term then removeDupAux seen rest
    else t :: removeDupAux (t.term :: seen) rest

def removeDuplicatesByNormalized (terms : List WeightedTerm) : List WeightedTerm :=
  removeDupAux [] terms

/-- The stable descending sort `uniqueTerms.sort((a, b) => b.weight - a.weight)`,
as insertion sort (stable: an element is inserted before the first strictly
lighter one). -/
def insertByWeightDesc (t : WeightedTerm) : List WeightedTerm → List WeightedTerm
  | [] => [t]
  | h :: r => if t.weight ≥ h.weight then t :: h :: r else h :: insertByWeightDesc t r

def sortByWeightDesc : List WeightedTerm → List WeightedTerm
  | [] => []
  | h :: r => insertByWeightDesc h (sortByWeightDesc r)

/-- The weighted-terms pipeline of `analyzeJobDescription` (api.js),
with the extracted terms (`allTerms`, produced upstream by the NLP
libraries) as a parameter: TF weights, required/preferred categorization,
per-term weighting, deduplication by normalized form, descending sort. -/
def analyzeJobDescription (jdText : String) (allTerms : List String) : List WeightedTerm :=
  let tfidf := calculateTFIDF jdText
  let rp := categorizeSkillImportance jdText allTerms
  sortByWeightDesc (removeDuplicatesByNormalized
    (allTerms.map (weighTerm jdText rp.1 rp.2 tfidf)))

/-! ## MatchEngine (api.js `matchResumeToJD`) -/

/-- One parsed experience job (section.detector.js). -/
structure Job where
  title : String
  bullets : List String
  deriving DecidableEq

/-- `isTermInExperience` (api.js). -/
def isTermInExperience (term : String) (experienceJobs : List Job) : Bool :=
  experienceJobs.any fun job => job.bullets.any fun bullet =>
    containsSub (jsToLower bullet).data (jsToLower term).data

/-- The `bestMatch`/`finalMatch` selection of `matchResumeToJD`: the
typo-tolerant match at threshold 0.70 when it found something truthy,
else the plain `findBestMatch`; the typo-correction flag always comes
from the typo-tolerant attempt. -/
def finalMatchFor (term : String) (allResumeTerms : List String) :
    Option String × ℚ × Bool :=
  let bestMatch := findBestMatchWithTypoTolerance term allResumeTerms (70/100)
  let truthy : Bool := match bestMatch.found with
    | some s => decide (s ≠ "")
    | none => false
  if truthy then (bestMatch.found, bestMatch.score, bestMatch.corrected)
  else
    let f := findBestMatch term allResumeTerms
    (f.found, f.score, bestMatch.corrected)

/-- A strong-bucket record of `matchResumeToJD`. -/
structure StrongRec where
  jdTerm : String
  resumeTerm : Option String
  score : ℚ
  weight : ℚ
  isRequired : Bool
  inSkillsSection : Bool
  inExperience : Bool
  typoCorrection : Bool
  deriving DecidableEq

/-- A partial-bucket record of `matchResumeToJD`. -/
structure PartialRec where
  jdTerm : String
  resumeTerm : Option String
  score : ℚ
  weight : ℚ
  isRequired : Bool
  typoCorrection : Bool
  deriving DecidableEq

/-- A missing-bucket record of `matchResumeToJD`. -/
structure MissingRec where
  term : String
  weight : ℚ
  isRequired : Bool
  isPreferred : Bool
  deriving DecidableEq

/-- The three buckets of `matchResumeToJD`. -/
structure Matches where
  strongMatch : List StrongRec
  partialMatch : List PartialRec
  missing : List MissingRec
  deriving DecidableEq

/-- The `jdAnalysis.weightedTerms.forEach` loop of `matchResumeToJD`
(api.js): each weighted JD term is matched against the resume terms and
pushed into exactly one bucket by the 0.65/0.45 thresholds.  The resume
terms, explicit skills and parsed experience jobs are the upstream inputs
of the loop. -/
def matchResumeToJD (allResumeTerms explicitSkills : List String)
    (experienceJobs : List Job) : List WeightedTerm → Matches
  | [] => ⟨[], [], []⟩
  | jdTerm :: rest =>
    let m := matchResumeToJD allResumeTerms explicitSkills experienceJobs rest
    let fm := finalMatchFor jdTerm.term allResumeTerms
    if fm.2.1 ≥ 65/100 then
      { m with strongMatch :=
        { jdTerm := jdTerm.term, resumeTerm := fm.1, score := fm.2.1,
          weight := jdTerm.weight, isRequired := jdTerm.isRequired,
          inSkillsSection := (match fm.1 with
            | some s => explicitSkills.contains s
            | none => false),
          inExperience := (match fm.1 with
            | some s => isTermInExperience s experienceJobs
            | none => false),
          typoCorrection := fm.2.2 } :: m.strongMatch }
    else if fm.2.1 ≥ 45/100 then
      { m with partialMatch :=
        { jdTerm := jdTerm.term, resumeTerm := fm.1, score := fm.2.1,
          weight := jdTerm.weight, isRequired := jdTerm.isRequired,
          typoCorrection := fm.2.2 } :: m.partialMatch }
    else
      { m with missing :=
        { term := jdTerm.term, weight := jdTerm.weight,
          isRequired := jdTerm.isRequired,
          isPreferred := jdTerm.isPreferred } :: m.missing }

/-! ## The AnalysisResult projections (api.js `performATSAnalysis`) -/

structure ResultStrong where
  skill : String
  matchedAs : Option String
  inSkillsSection : Bool
  demonstrated : Bool
  importance : String
  deriving DecidableEq

structure ResultPartial where
  skill : String
  matchedAs : Option String
  similarity : ℤ
  importance : String
  deriving DecidableEq

structure ResultMissing where
  skill : String
  importance : String
  impact : String
  deriving DecidableEq

/-- JS `Math.round` on the non-negative scores of this code base. -/
def jsRound (q : ℚ) : ℤ := ⌊q + 1/2⌋

/-- The `strongMatches`/`partialMatches`/`missingSkills` lists of the
`AnalysisResult` built by `performATSAnalysis` from the match buckets. -/
def performATSMatchLists (ms : Matches) :
    List ResultStrong × List ResultPartial × List ResultMissing :=
  (ms.strongMatch.map fun m =>
    { skill := m.jdTerm, matchedAs := m.resumeTerm,
      inSkillsSection := m.inSkillsSection, demonstrated := m.inExperience,
      importance := if m.isRequired then "required" else "preferred" },
   ms.partialMatch.map fun m =>
    { skill := m.jdTerm, matchedAs := m.resumeTerm,
      similarity := jsRound (m.score * 100),
      importance := if m.isRequired then "required" else "preferred" },
   ms.missing.map fun m =>
    { skill := m.term,
      importance := if m.isRequired then "required" else "preferred",
      impact := if m.weight > (1 : ℚ)/2 then "high"
        else if m.weight > (1 : ℚ)/5 then "medium" else "low" })

/-! ## ScoreCalculator (api.js `calculateATSScore` and sub-scores) -/

/-- The fields of `matchResults.sections` that the score reads (a field is
`none` when the key is absent — `undefined` — and an empty string is
falsy). -/
structure SectionsRec where
  skills : Option String
  experience : Option String
  summary : Option String
  deriving DecidableEq

structure MetricsRec where
  hasMetrics : Bool
  deriving DecidableEq

/-- What `calculateATSScore` reads of a `matchResults` object. -/
structure MatchResults where
  matchBuckets : Matches
  sections : Option SectionsRec
  resumeMetrics : Option MetricsRec
  deriving DecidableEq

/-- JS truthiness of an optional string field. -/
def truthyStr : Option String → Bool
  | some s => s ≠ ""
  | none => false

/-- `calculateSkillMatchScore` (api.js). -/
def calculateSkillMatchScore (mr : MatchResults) : ℚ :=
  let strongMatchCount := mr.matchBuckets.strongMatch.length
  let partialMatchCount := mr.matchBuckets.partialMatch.length
  let missingCount := mr.matchBuckets.missing.length
  let totalTerms := strongMatchCount + partialMatchCount + missingCount
  if totalTerms = 0 then 1/2
  else
    let weightedMatches : ℚ := (strongMatchCount : ℚ) + (partialMatchCount : ℚ) * (95/100)
    let rawScore := weightedMatches / (totalTerms : ℚ)
    min 1 (max (3/10) rawScore)

/-- `calculateRequiredMatchScore` (api.js). -/
def calculateRequiredMatchScore (mr : MatchResults) : ℚ :=
  let requiredMatches := (mr.matchBuckets.strongMatch.filter (·.isRequired)).length
  let requiredPartialMatches := (mr.matchBuckets.partialMatch.filter (·.isRequired)).length
  let requiredMissing := (mr.matchBuckets.missing.filter (·.isRequired)).length
  let totalRequired := requiredMatches + requiredPartialMatches + requiredMissing
  if totalRequired = 0 then 1
  else
    let weightedRequiredMatches : ℚ :=
      (requiredMatches : ℚ) + (requiredPartialMatches : ℚ) * (3/4)
    max (1/4) (weightedRequiredMatches / (totalRequired : ℚ))

/-- `calculateDemonstrationScore` (api.js). -/
def calculateDemonstrationScore (mr : MatchResults) : ℚ :=
  let demonstratedCount := (mr.matchBuckets.strongMatch.filter (·.inExperience)).length
  let totalStrongMatches := mr.matchBuckets.strongMatch.length
  if totalStrongMatches = 0 then 0
  else (demonstratedCount : ℚ) / (totalStrongMatches : ℚ)

/-- `calculateStructureScore` (api.js): each defined section key
contributes its weight to the achievable maximum, its truthy content to
the score. -/
def calculateStructureScore (mr : MatchResults) : ℚ :=
  match mr.sections with
  | none => 0
  | some sec =>
    let score : ℚ :=
      (if sec.skills.isSome then (if truthyStr sec.skills then (4:ℚ)/10 else 0) else 0) +
      (if sec.experience.isSome then (if truthyStr sec.experience then (4:ℚ)/10 else 0) else 0) +
      (if sec.summary.isSome then (if truthyStr sec.summary then (2:ℚ)/10 else 0) else 0)
    let maxScore : ℚ :=
      (if sec.skills.isSome then (4:ℚ)/10 else 0) +
      (if sec.experience.isSome then (4:ℚ)/10 else 0) +
      (if sec.summary.isSome then (2:ℚ)/10 else 0)
    if maxScore > 0 then score / maxScore else 0

/-- `calculateATSScore` (api.js): weighted sum of the five sub-scores,
×100, the 1.4 industry multiplier, the floor of 20, the additive bonuses
(strong, partial, structure, metrics) and the final round capped at
100. -/
def calculateATSScore (mr : MatchResults) : ℤ :=
  let finalScore : ℚ :=
    calculateSkillMatchScore mr * (55/100) +
    calculateRequiredMatchScore mr * (18/100) +
    calculateDemonstrationScore mr * (10/100) +
    calculateStructureScore mr * (10/100) +
    (match mr.resumeMetrics with
      | some m => if m.hasMetrics then (1:ℚ) else 0
      | none => 0) * (7/100)
  let score1 := finalScore * 100
  let score2 := score1 * (14/10)
  let score3 := max score2 20
  let strongMatchCount := mr.matchBuckets.strongMatch.length
  let partialMatchCount := mr.matchBuckets.partialMatch.length
  let score4 := if strongMatchCount > 0
    then score3 + min 12 ((strongMatchCount : ℚ) * (8/10)) else score3
  let score5 := if partialMatchCount > 0
    then score4 + min 8 ((partialMatchCount : ℚ) * (5/10)) else score4
  let score6 := match mr.sections with
    | some sec => if truthyStr sec.skills ∧ truthyStr sec.experience
        then score5 + 5 else score5
    | none => score5
  let score7 := match mr.resumeMetrics with
    | some m => if m.hasMetrics then score6 + 3 else score6
    | none => score6
  jsRound (min 100 score7)

/-- The number of match records, as the claims speak of it. -/
def totalTermCount (mr : MatchResults) : Nat :=
  mr.matchBuckets.strongMatch.length + mr.matchBuckets.partialMatch.length +
    mr.matchBuckets.missing.length

/-- The required-flagged counts `calculateRequiredMatchScore` reads. -/
def requiredStrongCount (mr : MatchResults) : Nat :=
  (mr.matchBuckets.strongMatch.filter (·.isRequired)).length

def requiredPartialCount (mr : MatchResults) : Nat :=
  (mr.matchBuckets.partialMatch.filter (·.isRequired)).length

def requiredMissingCount (mr : MatchResults) : Nat :=
  (mr.matchBuckets.missing.filter (·.isRequired)).length

def requiredTotalCount (mr : MatchResults) : Nat :=
  requiredStrongCount mr + requiredPartialCount mr + requiredMissingCount mr

/-! ## SectionDetector (section.detector.js `parseExperienceSection`) -/

/-- Four consecutive digits somewhere in the line (`/\d{4}/`). -/
def hasFourDigitRun : Nat → List Char → Bool
  | _, [] => false
  | k, c :: t =>
    if 48 ≤ c.toNat ∧ c.toNat ≤ 57 then
      if k + 1 ≥ 4 then true else hasFourDigitRun (k + 1) t
    else hasFourDigitRun 0 t

def jobWords : List String :=
  ["engineer", "developer", "manager", "analyst", "designer", "consultant",
   "specialist", "lead", "senior", "junior"]

/-- `isJobTitleLine` (section.detector.js): a 4-digit year, a job-role
word, or a pipe/dash separator. -/
def isJobTitleLine (line : String) : Bool :=
  hasFourDigitRun 0 line.data ||
  jobWords.any (fun w => containsSub (jsToLower line).data w.data) ||
  line.data.contains '|' || line.data.contains '–' || line.data.contains '—'

/-- `isBulletPoint` (section.detector.js): optional leading whitespace then
a bullet glyph, or a digit run followed by `.` or `)`. -/
def isBulletPoint (line : String) : Bool :=
  match line.data.dropWhile isJsSpace with
  | [] => false
  | c :: t =>
    if c = '•' ∨ c = '-' ∨ c = '*' ∨ c = '+' then true
    else if 48 ≤ c.toNat ∧ c.toNat ≤ 57 then
      match t.dropWhile (fun d => 48 ≤ d.toNat ∧ d.toNat ≤ 57) with
      | c2 :: _ => c2 = '.' ∨ c2 = ')'
      | [] => false
    else false

/-- `cleanBullet` (section.detector.js): strip the leading run of
whitespace, bullet glyphs, digits, dots and closing parens, then trim. -/
def cleanBullet (bullet : String) : String :=
  jsTrim ⟨bullet.data.dropWhile (fun c =>
    isJsSpace c ∨ c = '•' ∨ c = '-' ∨ c = '*' ∨ c = '+' ∨
    (48 ≤ c.toNat ∧ c.toNat ≤ 57) ∨ c = '.' ∨ c = ')')⟩

/-- The `lines.forEach` loop of `parseExperienceSection`: a job-title line
opens a new job (pushing the finished one), a bullet line is attached to
the open job, anything else — including bullets before the first title —
is dropped. -/
def parseExperienceLoop : Option Job → List String → List Job
  | cur, [] => match cur with
    | some j => [j]
    | none => []
  | cur, line :: rest =>
    let trimmed := jsTrim line
    if isJobTitleLine trimmed then
      match cur with
      | some j => j :: parseExperienceLoop (some ⟨trimmed, []⟩) rest
      | none => parseExperienceLoop (some ⟨trimmed, []⟩) rest
    else
      match cur with
      | some j =>
        if isBulletPoint trimmed then
          parseExperienceLoop (some ⟨j.title, j.bullets ++ [cleanBullet trimmed]⟩) rest
        else parseExperienceLoop (some j) rest
      | none => parseExperienceLoop none rest

/-- `parseExperienceSection` (section.detector.js). -/
def parseExperienceSection (experienceText : String) : List Job :=
  let lines := (splitOnChar '\n' experienceText.data).map (fun l => String.mk l)
  parseExperienceLoop none (lines.filter (fun l => jsTrim l ≠ ""))

/-- The claim's reading of `parseExperienceSection`, written from its
words: drop everything before the first job-title line; each title takes
as bullets the bullet lines (cleaned, in order) up to the next title;
plain lines are discarded. -/
def jobsSpec : List String → List Job
  | [] => []
  | l :: rest =>
    if isJobTitleLine l then
      { title := l,
        bullets := ((rest.takeWhile (fun x => ! isJobTitleLine x)).filter
          isBulletPoint).map cleanBullet } ::
        jobsSpec (rest.dropWhile (fun x => ! isJobTitleLine x))
    else jobsSpec rest
  termination_by l => l.length
  decreasing_by
    all_goals simp only [List.length_cons]
    all_goals first
      | omega
      | exact Nat.lt_succ_of_le (List.Sublist.length_le (List.dropWhile_sublist _))

/-! ## Claim-side formulas and concrete fixtures -/

/-- The weight formula the claim states for `analyzeJobDescription`:
at most one importance multiplier, required taking precedence. -/
def singleMultiplierWeight (base : ℚ) (isReq isPref : Bool) (frequency : Nat)
    (generic : Bool) : ℚ :=
  base * (if isReq then 3 else if isPref then 3/2 else 1) *
    (if frequency > 2 then 13/10 else 1) * (if generic then 3/10 else 1)

/-- ASCII alphanumeric (no underscore). -/
def isAsciiAlphanum (c : Char) : Bool :=
  (48 ≤ c.toNat ∧ c.toNat ≤ 57) ∨ (65 ≤ c.toNat ∧ c.toNat ≤ 90) ∨
  (97 ≤ c.toNat ∧ c.toNat ≤ 122)

/-- The characters the claim says survive `preprocessText`: alphanumerics,
the six technical characters, and the space that replaces everything
else.  Underscore is *not* here — the claim calls every non-listed
punctuation character replaced. -/
def claimKeptChar (c : Char) : Bool :=
  isAsciiAlphanum c ∨ c = '.' ∨ c = '+' ∨ c = '#' ∨ c = '-' ∨ c = '/' ∨
  c = '(' ∨ c = ')' ∨ c = ' '

/-- What actually survives `preprocessText`: the JS `\w` class (which has
underscore), the six technical characters, and the space. -/
def allowedOutChar (c : Char) : Bool :=
  isWordChar c ∨ c = '.' ∨ c = '+' ∨ c = '#' ∨ c = '-' ∨ c = '/' ∨
  c = '(' ∨ c = ')' ∨ c = ' '

/-- No two adjacent whitespace characters ("whitespace-collapsed"). -/
def noTwoSpaces (a b : Char) : Prop :=
  ¬(isJsSpace a = true ∧ isJsSpace b = true)

/-- A job description whose first term ("js") sits in a required context
and whose second term ("javascript") sits, more than 100 characters
later, in a preferred context.  Both normalize to "javascript", so the
normalized term lands in the required *and* the preferred set. -/
def jdBothSets : String :=
  "js must have qqqqqqqqqqqqqqqqqqqqqqqqqqqqqqqqqqqqqqqqqqqqqqqqqqqqqqqqqqqqqqqqqqqqqqqqqqqqqqqqqqqqqqqqqqqqqqqqqqqqqqqqqqqqqqqq javascript preferred"

/-- The weighted JD term for the spec's Scenario C ("Kubernetes"
normalizes to "kubernetes"; weight and flags as `analyzeJobDescription`
would produce for a required term of base weight 0.1). -/
def kubernetesWT : WeightedTerm :=
  { term := "kubernetes", originalTerm := "Kubernetes", weight := 1/10,
    isRequired := true, isPreferred := false, frequency := 1 }

/-- A one-missing-term `matchResults` fixture. -/
def oneTermMatchResults : MatchResults :=
  { matchBuckets :=
    { strongMatch := [],
      partialMatch := [],
      missing := [{ term := "python", weight := 1/10, isRequired := true,
                    isPreferred := false }] },
    sections := none,
    resumeMetrics := none }

/-! ## Theorems -/

/-! ## Lemmas about the character primitives -/

theorem char_toNat_ofNat_of_small {n : Nat} (h : n < 55296) :
    (Char.ofNat n).toNat = n := by
  have hv : n.isValidChar := Or.inl (by omega)
  unfold Char.ofNat
  rw [dif_pos hv]
  rfl

theorem jsLowerChar_idem (c : Char) : jsLowerChar (jsLowerChar c) = jsLowerChar c := by
  unfold jsLowerChar
  split_ifs with h1 h2
  · exfalso
    have : (Char.ofNat (c.toNat + 32)).toNat = c.toNat + 32 :=
      char_toNat_ofNat_of_small (by omega)
    omega
  · rfl
  · rfl

theorem isJsSpace_jsLowerChar (c : Char) : isJsSpace (jsLowerChar c) = isJsSpace c := by
  unfold jsLowerChar isJsSpace
  split_ifs with h
  · have : (Char.ofNat (c.toNat + 32)).toNat = c.toNat + 32 :=
      char_toNat_ofNat_of_small (by omega)
    rw [this]
    simp only [decide_eq_decide]
    omega
  · rfl

theorem jsToLower_idem (s : String) : jsToLower (jsToLower s) = jsToLower s := by
  unfold jsToLower
  cases s with
  | mk data =>
    simp only [List.map_map]
    congr 1
    induction data with
    | nil => rfl
    | cons c t ih => simp [ih, Function.comp, jsLowerChar_idem]

theorem dropWhile_dropWhile (p : Char → Bool) (l : List Char) :
    (l.dropWhile p).dropWhile p = l.dropWhile p := by
  induction l with
  | nil => rfl
  | cons c t ih =>
    by_cases h : p c
    · simp [List.dropWhile, h, ih]
    · simp [List.dropWhile, h]

theorem head_dropWhile_false {p : Char → Bool} {l : List Char} {a : Char}
    (h : (l.dropWhile p).head? = some a) : p a = false := by
  induction l with
  | nil => simp [List.dropWhile] at h
  | cons c t ih =>
    by_cases hc : p c
    · simp [List.dropWhile, hc] at h
      exact ih h
    · simp [List.dropWhile, hc] at h
      subst h
      simpa using hc

theorem dropWhile_eq_self_of_head {p : Char → Bool} {l : List Char}
    (h : ∀ a, l.head? = some a → p a = false) : l.dropWhile p = l := by
  cases l with
  | nil => rfl
  | cons c t =>
    have := h c rfl
    simp [List.dropWhile, this]

theorem dropWhile_suffix_ex (p : Char → Bool) (l : List Char) :
    ∃ u, u ++ l.dropWhile p = l := by
  induction l with
  | nil => exact ⟨[], rfl⟩
  | cons c t ih =>
    by_cases hc : p c
    · obtain ⟨u, hu⟩ := ih
      exact ⟨c :: u, by simp [List.dropWhile, hc, hu]⟩
    · exact ⟨[], by simp [List.dropWhile, hc]⟩

/-- Every element of `trimList l` at the head position fails the
whitespace test, so a second leading `dropWhile` is the identity. -/
theorem dropWhile_trimList (l : List Char) :
    (trimList l).dropWhile isJsSpace = trimList l := by
  apply dropWhile_eq_self_of_head
  intro a ha
  unfold trimList at ha
  rw [List.head?_reverse] at ha
  obtain ⟨u, hu⟩ := dropWhile_suffix_ex isJsSpace (l.dropWhile isJsSpace).reverse
  have h1 : ((l.dropWhile isJsSpace).reverse).getLast? = some a := by
    rw [← hu, List.getLast?_append, ha]
    rfl
  rw [List.getLast?_reverse] at h1
  exact head_dropWhile_false h1

theorem trimList_idem (l : List Char) : trimList (trimList l) = trimList l := by
  conv_lhs => rw [trimList, dropWhile_trimList]
  rw [trimList, List.reverse_reverse, dropWhile_dropWhile]

theorem dropWhile_map_lower (l : List Char) :
    (l.map jsLowerChar).dropWhile isJsSpace = (l.dropWhile isJsSpace).map jsLowerChar := by
  induction l with
  | nil => rfl
  | cons c t ih =>
    by_cases h : isJsSpace c
    · simp [List.dropWhile, h, isJsSpace_jsLowerChar, ih]
    · simp [List.dropWhile, h, isJsSpace_jsLowerChar]

theorem trimList_map_lower (l : List Char) :
    trimList (l.map jsLowerChar) = (trimList l).map jsLowerChar := by
  unfold trimList
  rw [dropWhile_map_lower, ← List.map_reverse, dropWhile_map_lower, List.map_reverse]

theorem map_lower_idem (l : List Char) :
    (l.map jsLowerChar).map jsLowerChar = l.map jsLowerChar := by
  induction l with
  | nil => rfl
  | cons c t ih => simp only [List.map_cons, jsLowerChar_idem, ih]

theorem jsLowerTrim_idem (s : String) : jsLowerTrim (jsLowerTrim s) = jsLowerTrim s := by
  unfold jsLowerTrim jsTrim jsToLower
  cases s with
  | mk data =>
    simp only
    congr 1
    calc trimList ((trimList (data.map jsLowerChar)).map jsLowerChar)
        = trimList (trimList ((data.map jsLowerChar).map jsLowerChar)) := by
          rw [← trimList_map_lower]
      _ = trimList ((data.map jsLowerChar).map jsLowerChar) := trimList_idem _
      _ = trimList (data.map jsLowerChar) := by rw [map_lower_idem]

theorem objLookup_mem {l : List (String × String)} {acc : Option String}
    {k v : String}
    (h : l.foldl (fun acc p => if p.1 = k then some p.2 else acc) acc = some v) :
    acc = some v ∨ ∃ p ∈ l, p.2 = v := by
  induction l generalizing acc with
  | nil => exact Or.inl h
  | cons p t ih =>
    simp only [List.foldl_cons] at h
    rcases ih h with h2 | ⟨q, hq, hqv⟩
    · by_cases hk : p.1 = k
      · rw [if_pos hk] at h2
        exact Or.inr ⟨p, List.mem_cons_self p t, Option.some.inj h2⟩
      · rw [if_neg hk] at h2
        exact Or.inl h2
    · exact Or.inr ⟨q, List.mem_cons_of_mem p hq, hqv⟩

theorem skillNormalizations_values_fixed :
    ∀ p ∈ skillNormalizations, jsLowerTrim p.2 = p.2 := by decide

/-- The output of `normalizeSkill` is already lower-cased and trimmed, so
a second lower-case/trim pass keeps it unchanged. -/
theorem jsLowerTrim_normalizeSkill (x : String) :
    jsLowerTrim (normalizeSkill x) = normalizeSkill x := by
  simp only [normalizeSkill]
  cases h : objLookup skillNormalizations (jsLowerTrim x) with
  | none =>
    simp only [Option.getD_none]
    exact jsLowerTrim_idem x
  | some v =>
    simp only [Option.getD_some]
    unfold objLookup at h
    rcases objLookup_mem h with h2 | ⟨p, hp, hpv⟩
    · exact absurd h2 (by simp)
    · rw [← hpv]
      exact skillNormalizations_values_fixed p hp

/-- C4, amended.  `normalizeSkill` is *not* idempotent in general (the
dictionary remaps several of its own values, e.g. "aws" →
"amazon web services" → "aws").  It is idempotent exactly on the terms
whose normalized form the dictionary does not remap to something else:
when the lookup of `normalizeSkill x` misses, or returns
`normalizeSkill x` itself, a second application is the identity. -/
theorem claim_C4_normalize_idem_amended (x : String)
    (h : objLookup skillNormalizations (normalizeSkill x) = none ∨
         objLookup skillNormalizations (normalizeSkill x) = some (normalizeSkill x)) :
    normalizeSkill (normalizeSkill x) = normalizeSkill x := by
  conv_lhs => rw [normalizeSkill, jsLowerTrim_normalizeSkill]
  rcases h with h | h
  · rw [h]
    rfl
  · rw [h]
    rfl

/-- C4, counterexample.  The claim says double application equals single
application for every term and names "aws" as an example; on the code,
`normalizeSkill "aws"` is "amazon web services" and normalizing that
again gives "aws" back. -/
theorem claim_C4_normalize_idem_counterexample :
    normalizeSkill (normalizeSkill "aws") ≠ normalizeSkill "aws" ∧
    normalizeSkill "aws" = "amazon web services" ∧
    normalizeSkill "amazon web services" = "aws" := by decide

/-- C4, witness: "docker" is a fixed point of the dictionary, so the
amended idempotence applies to it. -/
theorem claim_C4_normalize_idem_witness :
    objLookup skillNormalizations (normalizeSkill "docker") =
      some (normalizeSkill "docker") ∧
    normalizeSkill (normalizeSkill "docker") = normalizeSkill "docker" :=
  ⟨by decide, claim_C4_normalize_idem_amended "docker" (Or.inr (by decide))⟩

theorem matchResumeToJD_counts (rts es : List String) (ej : List Job)
    (wts : List WeightedTerm) :
    (matchResumeToJD rts es ej wts).strongMatch.length +
    (matchResumeToJD rts es ej wts).partialMatch.length +
    (matchResumeToJD rts es ej wts).missing.length = wts.length := by
  induction wts with
  | nil => rfl
  | cons wt rest ih =>
    rw [matchResumeToJD]
    split
    · simp only [List.length_cons]
      omega
    · split
      · simp only [List.length_cons]
        omega
      · simp only [List.length_cons]
        omega

/-- C1.  The matching loop assigns every weighted JD term to exactly one
bucket, and `performATSAnalysis` maps each bucket one-to-one into the
`AnalysisResult`, so `|strongMatches| + |partialMatches| +
|missingSkills|` equals the number of weighted JD terms. -/
theorem claim_C1_partition (wts : List WeightedTerm) (rts es : List String)
    (ej : List Job) :
    (performATSMatchLists (matchResumeToJD rts es ej wts)).1.length +
    (performATSMatchLists (matchResumeToJD rts es ej wts)).2.1.length +
    (performATSMatchLists (matchResumeToJD rts es ej wts)).2.2.length =
    wts.length := by
  unfold performATSMatchLists
  simp only [List.length_map]
  exact matchResumeToJD_counts rts es ej wts

/-- C3.  In the matching loop every weighted JD term is classified by the
score the code computes for it (the typo-tolerant match at threshold
0.70, else the plain best match): processing a term grows the strong
bucket exactly when that score is ≥ 0.65, the partial bucket exactly when
it lies in [0.45, 0.65), and the missing bucket exactly when it is
< 0.45 — which covers the boundary cases 1.0 and 0.65 (strong), 0.649
and 0.45 (partial), 0.449 (missing). -/
theorem claim_C3_threshold_classification (rts es : List String) (ej : List Job)
    (wt : WeightedTerm) (rest : List WeightedTerm) :
    ((matchResumeToJD rts es ej (wt :: rest)).strongMatch.length =
       (matchResumeToJD rts es ej rest).strongMatch.length + 1 ↔
      65/100 ≤ (finalMatchFor wt.term rts).2.1) ∧
    ((matchResumeToJD rts es ej (wt :: rest)).partialMatch.length =
       (matchResumeToJD rts es ej rest).partialMatch.length + 1 ↔
      (45/100 ≤ (finalMatchFor wt.term rts).2.1 ∧
       (finalMatchFor wt.term rts).2.1 < 65/100)) ∧
    ((matchResumeToJD rts es ej (wt :: rest)).missing.length =
       (matchResumeToJD rts es ej rest).missing.length + 1 ↔
      (finalMatchFor wt.term rts).2.1 < 45/100) := by
  rw [matchResumeToJD]
  split
  · rename_i h
    rw [ge_iff_le] at h
    refine ⟨iff_of_true (by simp) h, iff_of_false (by simp) ?_, iff_of_false (by simp) ?_⟩
    · intro ⟨_, hlt⟩
      exact absurd h (not_le.mpr hlt)
    · intro hlt
      exact absurd h (not_le.mpr (lt_trans hlt (by norm_num)))
  · split
    · rename_i h1 h2
      rw [ge_iff_le, not_le] at h1
      rw [ge_iff_le] at h2
      refine ⟨iff_of_false (by simp) ?_, iff_of_true (by simp) ⟨h2, h1⟩,
        iff_of_false (by simp) ?_⟩
      · intro hle
        exact absurd h1 (not_lt.mpr hle)
      · intro hlt
        exact absurd h2 (not_le.mpr hlt)
    · rename_i h1 h2
      rw [ge_iff_le, not_le] at h1 h2
      refine ⟨iff_of_false (by simp) ?_, iff_of_false (by simp) ?_,
        iff_of_true (by simp) h2⟩
      · intro hle
        exact absurd h1 (not_lt.mpr (le_trans (by norm_num) hle))
      · intro ⟨hle, _⟩
        exact absurd h2 (not_lt.mpr hle)

/-- C7.  `calculateRequiredMatchScore` is 1 when there is no required
term, else `(requiredStrong + 0.75·requiredPartial)/totalRequired`
clamped to [0.25, 1] (the upper clamp is vacuous, since the ratio never
exceeds 1); the result always lies in [0.25, 1]. -/
theorem claim_C7_required_match_score (mr : MatchResults) :
    (calculateRequiredMatchScore mr =
      if requiredTotalCount mr = 0 then 1
      else max (1/4) (min 1
        (((requiredStrongCount mr : ℚ) + (requiredPartialCount mr : ℚ) * (3/4)) /
          (requiredTotalCount mr : ℚ)))) ∧
    1/4 ≤ calculateRequiredMatchScore mr ∧ calculateRequiredMatchScore mr ≤ 1 := by
  have hunf : calculateRequiredMatchScore mr =
      if requiredTotalCount mr = 0 then 1
      else max (1/4)
        (((requiredStrongCount mr : ℚ) + (requiredPartialCount mr : ℚ) * (3/4)) /
          (requiredTotalCount mr : ℚ)) := by
    simp only [calculateRequiredMatchScore, requiredTotalCount, requiredStrongCount,
      requiredPartialCount, requiredMissingCount]
  by_cases h0 : requiredTotalCount mr = 0
  · rw [hunf, if_pos h0, if_pos h0]
    norm_num
  · have hpos : (0 : ℚ) < (requiredTotalCount mr : ℚ) := by
      exact_mod_cast Nat.pos_of_ne_zero h0
    have hnum : ((requiredStrongCount mr : ℚ) + (requiredPartialCount mr : ℚ) * (3/4)) ≤
        (requiredTotalCount mr : ℚ) := by
      have : (requiredStrongCount mr : ℚ) + (requiredPartialCount mr : ℚ) +
          (requiredMissingCount mr : ℚ) = (requiredTotalCount mr : ℚ) := by
        simp only [requiredTotalCount]
        push_cast
        ring
      have hp : (0 : ℚ) ≤ (requiredPartialCount mr : ℚ) := by positivity
      have hm : (0 : ℚ) ≤ (requiredMissingCount mr : ℚ) := by positivity
      nlinarith
    have hraw : ((requiredStrongCount mr : ℚ) + (requiredPartialCount mr : ℚ) * (3/4)) /
        (requiredTotalCount mr : ℚ) ≤ 1 := by
      rw [div_le_one hpos]
      exact hnum
    refine ⟨?_, ?_, ?_⟩
    · rw [hunf, if_neg h0, if_neg h0, min_eq_right hraw]
    · rw [hunf, if_neg h0]
      exact le_max_left _ _
    · rw [hunf, if_neg h0]
      exact max_le (by norm_num) hraw

theorem jsRound_bounds {x : ℚ} (h1 : 20 ≤ x) (h2 : x ≤ 100) :
    20 ≤ jsRound x ∧ jsRound x ≤ 100 := by
  constructor
  · rw [jsRound, Int.le_floor]
    push_cast
    linarith
  · rw [jsRound]
    have : (⌊x + 1/2⌋ : ℤ) < 101 := by
      rw [Int.floor_lt]
      push_cast
      linarith
    omega

/-- C2.  Once at least one weighted JD term reached the matcher, the final
ATS score is an integer (the codomain of the embedded `calculateATSScore`
is `ℤ`) between 20 and 100: the weighted component sum is scaled by 100
and 1.4, floored at 20, the four bonuses only add, and the final
round-of-min caps at 100. -/
theorem claim_C2_score_bounds (mr : MatchResults) (_h : 1 ≤ totalTermCount mr) :
    20 ≤ calculateATSScore mr ∧ calculateATSScore mr ≤ 100 := by
  unfold calculateATSScore
  set w : ℚ := calculateSkillMatchScore mr * (55/100) +
    calculateRequiredMatchScore mr * (18/100) +
    calculateDemonstrationScore mr * (10/100) +
    calculateStructureScore mr * (10/100) +
    (match mr.resumeMetrics with
      | some m => if m.hasMetrics then (1:ℚ) else 0
      | none => 0) * (7/100) with hw
  have h3 : (20 : ℚ) ≤ max (w * 100 * (14/10)) 20 := le_max_right _ _
  have hb1 : (0 : ℚ) ≤ min 12 ((mr.matchBuckets.strongMatch.length : ℚ) * (8/10)) :=
    le_min (by norm_num) (by positivity)
  have hb2 : (0 : ℚ) ≤ min 8 ((mr.matchBuckets.partialMatch.length : ℚ) * (5/10)) :=
    le_min (by norm_num) (by positivity)
  have key : ∀ y : ℚ, 20 ≤ y → 20 ≤ jsRound (min 100 y) ∧ jsRound (min 100 y) ≤ 100 := by
    intro y hy
    exact jsRound_bounds (le_min (by norm_num) hy) (min_le_left _ _)
  cases hsec : mr.sections with
  | none =>
    cases hmet : mr.resumeMetrics with
    | none =>
      dsimp only
      split_ifs <;> apply key <;> linarith
    | some m =>
      dsimp only
      split_ifs <;> apply key <;> linarith
  | some sec =>
    cases hmet : mr.resumeMetrics with
    | none =>
      dsimp only
      split_ifs <;> apply key <;> linarith
    | some m =>
      dsimp only
      split_ifs <;> apply key <;> linarith

/-- C2, witness at a one-missing-term fixture. -/
theorem claim_C2_score_bounds_witness :
    1 ≤ totalTermCount oneTermMatchResults ∧
    (20 ≤ calculateATSScore oneTermMatchResults ∧
     calculateATSScore oneTermMatchResults ≤ 100) :=
  ⟨by decide, claim_C2_score_bounds oneTermMatchResults (by decide)⟩

/-- C5, amended.  The required and preferred sets can overlap: two
different raw terms that normalize to the same form can put that form in
both sets, and the weighting block then applies ×3 *and* ×1.5.  Whenever
the normalized term is not in both sets, at most one multiplier is
applied, exactly as the claim states. -/
theorem claim_C5_single_multiplier_amended (jdText : String)
    (required preferred : List String) (tfidf : List (String × ℚ)) (term : String)
    (h : ¬(required.contains (normalizeSkill term) = true ∧
           preferred.contains (normalizeSkill term) = true)) :
    (weighTerm jdText required preferred tfidf term).weight =
      singleMultiplierWeight (baseWeightOf tfidf term)
        (required.contains (normalizeSkill term))
        (preferred.contains (normalizeSkill term))
        (countOccCI jdText term) (isGenericWord term) := by
  unfold weighTerm singleMultiplierWeight
  cases hr : required.contains (normalizeSkill term) with
  | true =>
    cases hp : preferred.contains (normalizeSkill term) with
    | true => exact absurd ⟨hr, hp⟩ h
    | false =>
      simp only [hr, hp, if_true, if_false]
      split_ifs <;> first | contradiction | ring
  | false =>
    cases hp : preferred.contains (normalizeSkill term) with
    | true =>
      simp only [hr, hp, if_true, if_false]
      split_ifs <;> first | contradiction | ring
    | false =>
      simp only [hr, hp, if_true, if_false]
      split_ifs <;> first | contradiction | ring

unseal Rat.mul Rat.inv Rat.add Rat.sub in
/-- C5, counterexample.  On `jdBothSets` with extracted terms "js" and
"javascript", the surviving weighted term is flagged required *and*
preferred and its weight is base×3×1.5 = 0.45, not the base×3 = 0.3 the
at-most-one-multiplier claim predicts. -/
theorem claim_C5_single_multiplier_counterexample :
    (analyzeJobDescription jdBothSets ["js", "javascript"]).map
      (fun wt => (wt.term, wt.weight, wt.isRequired, wt.isPreferred)) =
      [("javascript", 9/20, true, true)] ∧
    singleMultiplierWeight (baseWeightOf (calculateTFIDF jdBothSets) "js")
      true true (countOccCI jdBothSets "js") (isGenericWord "js") = 3/10 ∧
    ((9 : ℚ)/20 ≠ 3/10) := by decide

/-- C5, witness: a term whose normalized form is only in the required
set. -/
theorem claim_C5_single_multiplier_witness :
    ¬((["docker"] : List String).contains (normalizeSkill "docker") = true ∧
      ([] : List String).contains (normalizeSkill "docker") = true) ∧
    (weighTerm "" ["docker"] [] [] "docker").weight =
      singleMultiplierWeight (baseWeightOf [] "docker")
        ((["docker"] : List String).contains (normalizeSkill "docker"))
        (([] : List String).contains (normalizeSkill "docker"))
        (countOccCI "" "docker") (isGenericWord "docker") :=
  ⟨by decide, claim_C5_single_multiplier_amended "" ["docker"] [] [] "docker" (by decide)⟩

unseal Rat.mul Rat.inv Rat.add Rat.sub in
/-- C8, counterexample.  The spec's Scenario C: JD term "Kubernetes"
(normalized "kubernetes") against the resume typo "kuberntes".  The pair
*is* resolved as a strong match (Levenshtein similarity 0.9), but its
`typoCorrection` flag is `false`, not `true`: the autocorrect step applies
to the JD term, which is already spelled correctly. -/
theorem claim_C8_typo_flag_counterexample :
    normalizeSkill "Kubernetes" = "kubernetes" ∧
    normalizeSkill "kuberntes" = "kuberntes" ∧
    (matchResumeToJD ["kuberntes"] [] [] [kubernetesWT]).strongMatch.map
      (fun r => (r.jdTerm, r.resumeTerm, r.score, r.typoCorrection)) =
      [("kubernetes", some "kuberntes", 9/10, false)] := by decide

unseal Rat.mul Rat.inv Rat.add Rat.sub in
/-- C8, amended.  The "Kubernetes"/"kuberntes" pair resolves to a strong
match (score 0.9, so neither partial nor missing), but with
`typoCorrection = false`: autocorrection never altered the correctly
spelled JD term, and the Levenshtein half of the similarity does the
matching. -/
theorem claim_C8_typo_flag_amended :
    (matchResumeToJD ["kuberntes"] [] [] [kubernetesWT]).missing = [] ∧
    (matchResumeToJD ["kuberntes"] [] [] [kubernetesWT]).partialMatch = [] ∧
    (matchResumeToJD ["kuberntes"] [] [] [kubernetesWT]).strongMatch.map
      (fun r => (r.resumeTerm, r.score, r.typoCorrection)) =
      [(some "kuberntes", 9/10, false)] ∧
    (findBestMatchWithTypoTolerance "kubernetes" ["kuberntes"] (70/100)).corrected
      = false := by decide

theorem mem_addSet_self (l : List String) (x : String) : x ∈ addSet l x := by
  unfold addSet
  split_ifs with h
  · rw [List.contains] at h
    exact List.elem_iff.mp h
  · exact List.mem_append_right l (List.mem_singleton_self x)

theorem mem_addSet_of_mem {l : List String} {x : String} (y : String)
    (h : x ∈ l) : x ∈ addSet l y := by
  unfold addSet
  split_ifs
  · exact h
  · exact List.mem_append_left _ h

theorem categorizeStep_mono (lt : List Char) (acc : List String × List String)
    (term : String) {x : String} :
    (x ∈ acc.1 → x ∈ (categorizeStep lt acc term).1) ∧
    (x ∈ acc.2 → x ∈ (categorizeStep lt acc term).2) := by
  simp only [categorizeStep]
  cases firstIndexOf lt (jsToLower term).data with
  | none => exact ⟨id, id⟩
  | some i =>
    dsimp only
    split_ifs
    · exact ⟨mem_addSet_of_mem _, id⟩
    · exact ⟨id, mem_addSet_of_mem _⟩
    · exact ⟨mem_addSet_of_mem _, id⟩

theorem categorizeFoldl_mono (lt : List Char) (l : List String)
    (acc : List String × List String) {x : String} :
    (x ∈ acc.1 → x ∈ (l.foldl (categorizeStep lt) acc).1) ∧
    (x ∈ acc.2 → x ∈ (l.foldl (categorizeStep lt) acc).2) := by
  induction l generalizing acc with
  | nil => exact ⟨id, id⟩
  | cons term rest ih =>
    simp only [List.foldl_cons]
    exact ⟨fun h => (ih _).1 ((categorizeStep_mono lt acc term).1 h),
           fun h => (ih _).2 ((categorizeStep_mono lt acc term).2 h)⟩

theorem categorizeStep_adds (lt : List Char) (acc : List String × List String)
    (term : String) (i : Nat)
    (hfound : firstIndexOf lt (jsToLower term).data = some i) :
    normalizeSkill term ∈ (categorizeStep lt acc term).1 ∨
    normalizeSkill term ∈ (categorizeStep lt acc term).2 := by
  simp only [categorizeStep]
  rw [hfound]
  dsimp only
  split_ifs
  · exact Or.inl (mem_addSet_self _ _)
  · exact Or.inr (mem_addSet_self _ _)
  · exact Or.inl (mem_addSet_self _ _)

theorem categorizeStep_default (lt : List Char) (acc : List String × List String)
    (term : String) (i : Nat)
    (hfound : firstIndexOf lt (jsToLower term).data = some i)
    (hreq : hasRequiredIndicator (termContext lt (jsToLower term).data i) = false)
    (hpref : hasPreferredIndicator (termContext lt (jsToLower term).data i) = false) :
    normalizeSkill term ∈ (categorizeStep lt acc term).1 := by
  simp only [categorizeStep]
  rw [hfound]
  dsimp only
  rw [hreq, hpref]
  simp only [Bool.false_eq_true, if_false]
  exact mem_addSet_self _ _

/-- C6, amended.  A term that *occurs* in the lower-cased JD text is
always classified: its normalized form lands in the required or the
preferred set, in the required set when its context window shows neither
kind of indicator, and the weighted term built from it carries
`isRequired` or `isPreferred`.  (A term the raw JD does not literally
contain — possible because extraction runs on preprocessed text — is
skipped by `categorizeSkillImportance` and carries neither flag, which is
what the counterexample shows.) -/
theorem claim_C6_default_required_amended (jdText : String) (terms : List String)
    (term : String) (hmem : term ∈ terms) (i : Nat)
    (hfound : firstIndexOf (jsToLower jdText).data (jsToLower term).data = some i) :
    (normalizeSkill term ∈ (categorizeSkillImportance jdText terms).1 ∨
     normalizeSkill term ∈ (categorizeSkillImportance jdText terms).2) ∧
    (hasRequiredIndicator
        (termContext (jsToLower jdText).data (jsToLower term).data i) = false →
     hasPreferredIndicator
        (termContext (jsToLower jdText).data (jsToLower term).data i) = false →
     normalizeSkill term ∈ (categorizeSkillImportance jdText terms).1) ∧
    (∀ tfidf : List (String × ℚ),
      (weighTerm jdText (categorizeSkillImportance jdText terms).1
        (categorizeSkillImportance jdText terms).2 tfidf term).isRequired = true ∨
      (weighTerm jdText (categorizeSkillImportance jdText terms).1
        (categorizeSkillImportance jdText terms).2 tfidf term).isPreferred = true) := by
  obtain ⟨l₁, l₂, rfl⟩ := List.append_of_mem hmem
  have hmain : normalizeSkill term ∈ (categorizeSkillImportance jdText (l₁ ++ term :: l₂)).1 ∨
      normalizeSkill term ∈ (categorizeSkillImportance jdText (l₁ ++ term :: l₂)).2 := by
    unfold categorizeSkillImportance
    rw [List.foldl_append, List.foldl_cons]
    rcases categorizeStep_adds (jsToLower jdText).data
        (List.foldl (categorizeStep (jsToLower jdText).data) ([], []) l₁) term i hfound with
      h | h
    · exact Or.inl ((categorizeFoldl_mono _ l₂ _).1 h)
    · exact Or.inr ((categorizeFoldl_mono _ l₂ _).2 h)
  refine ⟨hmain, ?_, ?_⟩
  · intro hreq hpref
    unfold categorizeSkillImportance
    rw [List.foldl_append, List.foldl_cons]
    exact (categorizeFoldl_mono _ l₂ _).1
      (categorizeStep_default (jsToLower jdText).data _ term i hfound hreq hpref)
  · intro tfidf
    unfold weighTerm
    rcases hmain with h | h
    · exact Or.inl (by
        simp only
        rw [List.contains]
        exact List.elem_iff.mpr h)
    · exact Or.inr (by
        simp only
        rw [List.contains]
        exact List.elem_iff.mpr h)

/-- C6, counterexample.  The JD text "machine,learning" yields the
extracted phrase "machine learning" (extraction runs on preprocessed
text, where the comma has become a space), but the raw lower-cased JD
does not contain "machine learning", so `categorizeSkillImportance`
skips it and the weighted term carries neither `isRequired` nor
`isPreferred` — contradicting "every weighted JD term carries isRequired
or isPreferred true". -/
theorem claim_C6_default_required_counterexample :
    firstIndexOf (jsToLower "machine,learning").data
      (jsToLower "machine learning").data = none ∧
    (analyzeJobDescription "machine,learning" ["machine learning"]).map
      (fun wt => (wt.term, wt.isRequired, wt.isPreferred)) =
      [("ml", false, false)] := by decide

/-- C6, witness: "docker" occurs in "we use docker daily" (at index 7)
with no indicator in its context, so it is classified required. -/
theorem claim_C6_default_required_witness :
    ("docker" ∈ (["docker"] : List String)) ∧
    firstIndexOf (jsToLower "we use docker daily").data
      (jsToLower "docker").data = some 7 ∧
    normalizeSkill "docker" ∈
      (categorizeSkillImportance "we use docker daily" ["docker"]).1 :=
  ⟨List.mem_singleton_self "docker", by decide,
    (claim_C6_default_required_amended "we use docker daily" ["docker"] "docker"
      (List.mem_singleton_self "docker") 7 (by decide)).2.1 (by decide) (by decide)⟩

theorem collapseWS_space : ∀ (l : List Char) (c : Char),
    c ∈ collapseWS l → isJsSpace c = true → c = ' ' := by
  intro l
  induction l with
  | nil => intro c hc _; simp [collapseWS] at hc
  | cons a t ih =>
    intro c hc hsp
    rw [collapseWS] at hc
    by_cases ha : isJsSpace a
    · rw [if_pos ha] at hc
      by_cases hh : (collapseWS t).head? = some ' '
      · rw [if_pos hh] at hc
        exact ih c hc hsp
      · rw [if_neg hh] at hc
        rcases List.mem_cons.mp hc with rfl | hc
        · rfl
        · exact ih c hc hsp
    · rw [if_neg ha] at hc
      rcases List.mem_cons.mp hc with rfl | hc
      · exact absurd hsp (by simpa using ha)
      · exact ih c hc hsp

theorem collapseWS_mem : ∀ (l : List Char) (c : Char),
    c ∈ collapseWS l → c ∈ l ∨ c = ' ' := by
  intro l
  induction l with
  | nil => intro c hc; simp [collapseWS] at hc
  | cons a t ih =>
    intro c hc
    rw [collapseWS] at hc
    by_cases ha : isJsSpace a
    · rw [if_pos ha] at hc
      by_cases hh : (collapseWS t).head? = some ' '
      · rcases ih c (by rwa [if_pos hh] at hc) with h | h
        · exact Or.inl (List.mem_cons_of_mem a h)
        · exact Or.inr h
      · rw [if_neg hh] at hc
        rcases List.mem_cons.mp hc with rfl | hc
        · exact Or.inr rfl
        · rcases ih c hc with h | h
          · exact Or.inl (List.mem_cons_of_mem a h)
          · exact Or.inr h
    · rw [if_neg ha] at hc
      rcases List.mem_cons.mp hc with rfl | hc
      · exact Or.inl (List.mem_cons_self _ _)
      · rcases ih c hc with h | h
        · exact Or.inl (List.mem_cons_of_mem a h)
        · exact Or.inr h

theorem collapseWS_chain : ∀ (l : List Char),
    List.Chain' noTwoSpaces (collapseWS l) := by
  intro l
  induction l with
  | nil => simp [collapseWS]
  | cons a t ih =>
    rw [collapseWS]
    by_cases ha : isJsSpace a
    · rw [if_pos ha]
      by_cases hh : (collapseWS t).head? = some ' '
      · rwa [if_pos hh]
      · rw [if_neg hh]
        rw [List.chain'_cons']
        refine ⟨?_, ih⟩
        intro b hb
        intro ⟨_, hbsp⟩
        have hbmem : b ∈ collapseWS t := List.mem_of_mem_head? hb
        exact hh (by rw [collapseWS_space t b hbmem hbsp] at hb; exact hb)
    · rw [if_neg ha]
      rw [List.chain'_cons']
      refine ⟨?_, ih⟩
      intro b _
      intro ⟨hasp, _⟩
      exact ha (by simpa using hasp)

theorem caw_skip_eq (l : List Char) (b : Bool)
    (h : ∀ d, l.head? = some d → isJsSpace d = false) :
    collapseAfterWordBoundary b true l = collapseAfterWordBoundary b false l := by
  cases l with
  | nil => rfl
  | cons d t =>
    have hd := h d rfl
    rw [collapseAfterWordBoundary, collapseAfterWordBoundary, if_neg (by simp [hd]),
      if_neg (by simp [hd])]

theorem caw_id : ∀ (l : List Char) (b : Bool),
    (∀ c ∈ l, isJsSpace c = true → c = ' ') →
    List.Chain' noTwoSpaces l →
    collapseAfterWordBoundary b false l = l := by
  intro l
  induction l with
  | nil => intro b _ _; rfl
  | cons c t ih =>
    intro b hsp hch
    rw [collapseAfterWordBoundary]
    by_cases hc : isJsSpace c
    · rw [if_pos hc, if_neg (by simp)]
      have hceq : c = ' ' := hsp c (List.mem_cons_self _ _) (by simpa using hc)
      have hthead : ∀ d, t.head? = some d → isJsSpace d = false := by
        intro d hd
        have := (List.chain'_cons'.mp hch).1 d hd
        unfold noTwoSpaces at this
        by_contra hdsp
        rw [Bool.not_eq_false] at hdsp
        exact this ⟨by simpa using hc, hdsp⟩
      have hrec : collapseAfterWordBoundary false true t = t := by
        rw [caw_skip_eq t false hthead]
        exact ih false (fun x hx => hsp x (List.mem_cons_of_mem c hx))
          (List.chain'_cons'.mp hch).2
      split_ifs
      · rw [hrec, hceq]
      · rw [ih false (fun x hx => hsp x (List.mem_cons_of_mem c hx))
          (List.chain'_cons'.mp hch).2]
    · rw [if_neg hc]
      rw [ih (isWordChar c) (fun x hx => hsp x (List.mem_cons_of_mem c hx))
        (List.chain'_cons'.mp hch).2]

theorem trimList_subset (l : List Char) : ∀ c ∈ trimList l, c ∈ l := by
  intro c hc
  unfold trimList at hc
  rw [List.mem_reverse] at hc
  have h1 := List.dropWhile_subset isJsSpace hc
  rw [List.mem_reverse] at h1
  exact List.dropWhile_subset isJsSpace h1

theorem noTwoSpaces_symm {a b : Char} (h : noTwoSpaces a b) : noTwoSpaces b a := by
  unfold noTwoSpaces at h ⊢
  intro ⟨h1, h2⟩
  exact h ⟨h2, h1⟩

theorem trimList_chain {l : List Char} (h : List.Chain' noTwoSpaces l) :
    List.Chain' noTwoSpaces (trimList l) := by
  unfold trimList
  have h1 : List.Chain' noTwoSpaces (l.dropWhile isJsSpace) :=
    h.suffix (List.dropWhile_suffix isJsSpace)
  have h2 : List.Chain' noTwoSpaces (l.dropWhile isJsSpace).reverse :=
    List.chain'_reverse.mpr (h1.imp fun _ _ hab => noTwoSpaces_symm hab)
  have h3 : List.Chain' noTwoSpaces
      ((l.dropWhile isJsSpace).reverse.dropWhile isJsSpace) :=
    h2.suffix (List.dropWhile_suffix isJsSpace)
  exact List.chain'_reverse.mpr (h3.imp fun _ _ hab => noTwoSpaces_symm hab)

theorem head_trimList_not_space {l : List Char} {c : Char}
    (h : (trimList l).head? = some c) : isJsSpace c = false := by
  by_contra hsp
  rw [Bool.not_eq_false] at hsp
  cases htl : trimList l with
  | nil => rw [htl] at h; simp at h
  | cons a rest =>
    rw [htl] at h
    simp only [List.head?_cons, Option.some.injEq] at h
    subst h
    have hd := dropWhile_trimList l
    rw [htl, List.dropWhile_cons_of_pos hsp] at hd
    have hle : (rest.dropWhile isJsSpace).length ≤ rest.length :=
      (List.dropWhile_sublist isJsSpace).length_le
    have := congrArg List.length hd
    simp at this
    omega

theorem last_trimList_not_space {l : List Char} {c : Char}
    (h : (trimList l).getLast? = some c) : isJsSpace c = false := by
  have h2 : (trimList l).reverse.head? = some c := by
    rw [List.head?_reverse]
    exact h
  rw [trimList, List.reverse_reverse] at h2
  exact head_dropWhile_false h2

theorem replaceKeptChar_allowed (c : Char) (h : isJsSpace c = true → c = ' ') :
    allowedOutChar (replaceKeptChar c) = true := by
  unfold replaceKeptChar
  split_ifs with hcond
  · rcases hcond with hw | hs | hk
    · simp [allowedOutChar, hw]
    · rw [h hs]
      decide
    · fin_cases hk <;> decide
  · decide

theorem preprocessTransform_wellformed (s : String) :
    (∀ c ∈ (preprocessTransform s).data, allowedOutChar c = true) ∧
    List.Chain' noTwoSpaces (preprocessTransform s).data ∧
    (∀ c, (preprocessTransform s).data.head? = some c → isJsSpace c = false) ∧
    (∀ c, (preprocessTransform s).data.getLast? = some c → isJsSpace c = false) := by
  have hdata : (preprocessTransform s).data =
      trimList (collapseAfterWordBoundary false false
        (collapseWS ((collapseWS s.data).map replaceKeptChar))) := rfl
  set l3 := collapseWS ((collapseWS s.data).map replaceKeptChar) with hl3
  have hsp3 : ∀ c ∈ l3, isJsSpace c = true → c = ' ' := collapseWS_space _
  have hch3 : List.Chain' noTwoSpaces l3 := collapseWS_chain _
  have hl4 : collapseAfterWordBoundary false false l3 = l3 := caw_id l3 false hsp3 hch3
  rw [hdata, hl4]
  refine ⟨?_, trimList_chain hch3, fun c h => head_trimList_not_space h,
    fun c h => last_trimList_not_space h⟩
  intro c hc
  have hc3 : c ∈ l3 := trimList_subset _ c hc
  rcases collapseWS_mem _ c hc3 with hc2 | rfl
  · rcases List.mem_map.mp hc2 with ⟨c1, hc1, rfl⟩
    exact replaceKeptChar_allowed c1 (collapseWS_space s.data c1 hc1)
  · decide

/-- C9, amended.  `preprocessText` is total (the embedding is a Lean
function): `null`, `undefined` and non-string inputs give the empty
string, and for string input every character of the output is a word
character (letters, digits — and underscore, which the JS `\w` class
keeps even though it is punctuation), one of `.`, `+`, `#`, `-`, `/`,
`(`, `)`, or a space; whitespace is collapsed (no two adjacent
whitespace characters) and trimmed at both ends. -/
theorem claim_C9_preprocess_amended :
    preprocessText .nullv = "" ∧ preprocessText .undefinedv = "" ∧
    (∀ q, preprocessText (.numv q) = "") ∧
    (∀ b, preprocessText (.boolv b) = "") ∧
    (∀ s : String,
      (∀ c ∈ (preprocessText (.strv s)).data, allowedOutChar c = true) ∧
      List.Chain' noTwoSpaces (preprocessText (.strv s)).data ∧
      (∀ c, (preprocessText (.strv s)).data.head? = some c → isJsSpace c = false) ∧
      (∀ c, (preprocessText (.strv s)).data.getLast? = some c → isJsSpace c = false)) := by
  refine ⟨rfl, rfl, fun q => rfl, fun b => rfl, fun s => ?_⟩
  by_cases hs : s = ""
  · subst hs
    refine ⟨?_, ?_, ?_, ?_⟩ <;> simp [preprocessText]
  · have : preprocessText (.strv s) = preprocessTransform s := by
      simp [preprocessText, hs]
    rw [this]
    exact preprocessTransform_wellformed s

/-- C9, counterexample.  Underscore is punctuation and is not among the
six characters the claim lists, yet `preprocessText` keeps it: on input
"a_b" the output still contains '_' instead of replacing it with a
space. -/
theorem claim_C9_preprocess_counterexample :
    preprocessText (.strv "a_b") = "a_b" ∧ '_' ∈ "a_b".data ∧
    claimKeptChar '_' = false := by
  refine ⟨rfl, by decide, by decide⟩

theorem parseExperienceLoop_some : ∀ (ls : List String) (j : Job),
    parseExperienceLoop (some j) ls =
      { title := j.title,
        bullets := j.bullets ++
          (((ls.map jsTrim).takeWhile (fun x => ! isJobTitleLine x)).filter
            isBulletPoint).map cleanBullet } ::
      jobsSpec ((ls.map jsTrim).dropWhile (fun x => ! isJobTitleLine x)) := by
  intro ls
  induction ls with
  | nil =>
    intro j
    simp [parseExperienceLoop, jobsSpec]
  | cons line rest ih =>
    intro j
    rw [parseExperienceLoop]
    by_cases ht : isJobTitleLine (jsTrim line)
    · rw [if_pos ht]
      simp only [List.map_cons]
      rw [List.takeWhile_cons, List.dropWhile_cons]
      simp only [ht, Bool.not_true, Bool.false_eq_true, if_false]
      rw [ih ⟨jsTrim line, []⟩]
      rw [jobsSpec]
      simp [ht]
    · rw [if_neg ht]
      by_cases hb : isBulletPoint (jsTrim line)
      · rw [if_pos hb]
        rw [ih ⟨j.title, j.bullets ++ [cleanBullet (jsTrim line)]⟩]
        simp only [List.map_cons]
        rw [List.takeWhile_cons, List.dropWhile_cons]
        simp only [ht, Bool.not_false, if_true, List.filter_cons, hb,
          List.map_cons, List.append_assoc, List.singleton_append]
      · rw [if_neg hb]
        rw [ih j]
        simp only [List.map_cons]
        rw [List.takeWhile_cons, List.dropWhile_cons]
        simp only [ht, Bool.not_false, if_true, List.filter_cons, hb,
          Bool.false_eq_true, if_false]

theorem parseExperienceLoop_none : ∀ ls : List String,
    parseExperienceLoop none ls = jobsSpec (ls.map jsTrim) := by
  intro ls
  induction ls with
  | nil => simp [parseExperienceLoop, jobsSpec]
  | cons line rest ih =>
    rw [parseExperienceLoop]
    by_cases ht : isJobTitleLine (jsTrim line)
    · rw [if_pos ht]
      rw [parseExperienceLoop_some rest ⟨jsTrim line, []⟩]
      simp only [List.map_cons]
      rw [jobsSpec]
      simp only [ht, if_true, List.nil_append]
    · rw [if_neg ht]
      simp only [List.map_cons]
      rw [jobsSpec]
      simp only [ht, Bool.false_eq_true, if_false]
      exact ih

/-- C10.  `parseExperienceSection` keeps exactly the job-title lines and
the bullet lines that follow at least one title: the result equals the
claim-side grouping `jobsSpec` on the trimmed non-empty lines — bullets
before the first title and plain non-bullet lines are discarded, and each
job's bullets keep their input order with leading markers stripped. -/
theorem claim_C10_parse_experience (experienceText : String) :
    parseExperienceSection experienceText =
      jobsSpec ((((splitOnChar '\n' experienceText.data).map
        (fun l => String.mk l)).filter (fun l => jsTrim l ≠ "")).map jsTrim) := by
  unfold parseExperienceSection
  exact parseExperienceLoop_none _
